import Mathlib

/-!
Verification of the oracle-mcp browser-automation core against its specification.

The definitions below are a shallow embedding of three source files:
* the injected search-toggle DOM probe (src/browser/actions/searchToggle.ts),
* the session CLI command handler (handleSessionCommand),
* the MCP browser-query tool handler (the answer-text selection).

DOM documents are modelled as lists of element records; the probe's injected
JavaScript is translated operation by operation (text normalization, selector
matching, candidate gathering with set semantics, first-match selection,
on-state detection, label extraction, click synthesis with a try/catch
boundary).
-/

namespace OracleMcp

/-- Character class of the regex [a-z0-9] used by the probe's normalizer
(lower-case latin letters and digits, by code point). -/
def isLowerAlnum (c : Char) : Bool :=
  (97 ≤ c.toNat && c.toNat ≤ 122) || (48 ≤ c.toNat && c.toNat ≤ 57)

/-- JavaScript regex whitespace class \s restricted to the ASCII whitespace
characters (space, tab, line feed, carriage return, vertical tab, form feed). -/
def isJsSpace (c : Char) : Bool :=
  c == ' ' || c == '\t' || c == '\n' || c == '\r' || c == '\x0b' || c == '\x0c'

/-- Characters that can appear in a fully normalized string: lower-case
alphanumerics and the single space. -/
def goodChar (c : Char) : Bool := isLowerAlnum c || c == ' '

/-- Replace every maximal run of characters satisfying p by the single
character r; the flag records whether the previous character was inside a run
(JavaScript replace of the regex p+ by r). -/
def replaceRunsAux (p : Char → Bool) (r : Char) : Bool → List Char → List Char
  | _, [] => []
  | inRun, c :: rest =>
    if p c then
      if inRun then replaceRunsAux p r true rest
      else r :: replaceRunsAux p r true rest
    else c :: replaceRunsAux p r false rest

/-- Replace every maximal run of characters satisfying p by the character r. -/
def replaceRuns (p : Char → Bool) (r : Char) (l : List Char) : List Char :=
  replaceRunsAux p r false l

/-- JavaScript String.trim on a character list: drop whitespace from both ends. -/
def jsTrimList (l : List Char) : List Char :=
  ((l.dropWhile isJsSpace).reverse.dropWhile isJsSpace).reverse

/-- Adjacent-pair predicate: no two neighbouring characters both satisfy p. -/
def noAdj (p : Char → Bool) : List Char → Bool
  | [] => true
  | [_] => true
  | a :: b :: rest => (!(p a && p b)) && noAdj p (b :: rest)

/-- The normalization pipeline of the probe on a character list: lower-case,
collapse non-alphanumeric runs to single spaces, collapse whitespace runs,
trim. -/
def normList (l : List Char) : List Char :=
  jsTrimList (replaceRuns isJsSpace ' '
    (replaceRuns (fun c => !(isLowerAlnum c)) ' ' (l.map Char.toLower)))

/-- The probe's normalizeText: the empty (falsy) string maps to itself,
otherwise lower-case, replace [^a-z0-9]+ by a space, collapse \s+, trim. -/
def normalizeText (s : String) : String :=
  if s = "" then "" else String.mk (normList s.data)

/-- JavaScript String.trim. -/
def jsTrim (s : String) : String := String.mk (jsTrimList s.data)

/-- JavaScript String.toLowerCase restricted to the basic latin range. -/
def strToLower (s : String) : String := String.mk (s.data.map Char.toLower)

/-- JavaScript a || b on strings: the empty string is falsy. -/
def jsOrStr (a b : String) : String := if a = "" then b else a

/-- Does the first list start with the second one? -/
def listStartsWith : List Char → List Char → Bool
  | _, [] => true
  | [], _ :: _ => false
  | a :: as, b :: bs => (a == b) && listStartsWith as bs

/-- Does the second list contain the first as a contiguous run? -/
def listContainsSub (needle : List Char) : List Char → Bool
  | [] => listStartsWith [] needle
  | c :: rest => listStartsWith (c :: rest) needle || listContainsSub needle rest

/-- JavaScript String.includes: substring containment. -/
def jsIncludes (hay needle : String) : Bool := listContainsSub needle.data hay.data

/-- A DOM element as observed by the probe: the instanceof HTMLElement test,
the tag name, and the attributes and text the probe reads (getAttribute
returns null for an absent attribute, modelled by none). -/
structure Elem where
  isHTML : Bool
  tag : String
  role : Option String
  ariaPressed : Option String
  ariaChecked : Option String
  dataState : Option String
  ariaLabel : Option String
  dataTestid : Option String
  textContent : Option String
deriving DecidableEq

/-- Placeholder element for out-of-range indexing. -/
def defaultElem : Elem :=
  { isHTML := false, tag := "", role := none, ariaPressed := none, ariaChecked := none,
    dataState := none, ariaLabel := none, dataTestid := none, textContent := none }

/-- Element of a document (a list of elements in document order) at an index. -/
def elemAt (doc : List Elem) (i : Nat) : Elem := doc.getD i defaultElem

/-- The probe's keyword list. -/
def KEYWORDS : List String := ["search", "web search", "browse", "browsing"]

/-- The probe's fixed selector list. -/
def SELECTORS : List String :=
  ["button", "[role=\"switch\"]", "[data-testid]", "[aria-pressed]", "[aria-checked]"]

/-- Which elements each selector of the fixed list matches. -/
def matchesSelector (sel : String) (e : Elem) : Bool :=
  if sel = "button" then e.tag == "button"
  else if sel = "[role=\"switch\"]" then e.role == some ("switch")
  else if sel = "[data-testid]" then e.dataTestid.isSome
  else if sel = "[aria-pressed]" then e.ariaPressed.isSome
  else if sel = "[aria-checked]" then e.ariaChecked.isSome
  else false

/-- document.querySelectorAll: the indices of matching elements in document
order. -/
def queryAll (sel : String) (doc : List Elem) : List Nat :=
  (List.range doc.length).filter (fun i => matchesSelector sel (elemAt doc i))

/-- The probe's candidate set: a JavaScript Set filled selector by selector,
so iteration order is first-insertion order. -/
def candidates (doc : List Elem) : List Nat :=
  SELECTORS.foldl (fun acc sel => acc ++ (queryAll sel doc).filter (fun i => !(acc.contains i))) []

/-- The data-state values the probe treats as an active toggle. -/
def ACTIVE_STATES : List String := ["on", "true", "checked", "selected", "active"]

/-- The probe's isOn: aria-pressed or aria-checked equal to the string true,
or a data-state value (lower-cased, absent treated as empty) in the active
set; non-HTML elements are never on. -/
def isOn (e : Elem) : Bool :=
  if !e.isHTML then false
  else
    let dataState := strToLower (e.dataState.getD (""))
    if e.ariaPressed == some ("true") || e.ariaChecked == some ("true") then true
    else if ACTIVE_STATES.contains dataState then true
    else false

/-- The best label source: aria-label, else text content, else data-testid
(JavaScript || chain on the raw attribute strings). -/
def labelSource (e : Elem) : String :=
  jsOrStr (jsOrStr (e.ariaLabel.getD ("")) (e.textContent.getD ("")))
    (e.dataTestid.getD (""))

/-- The probe's getLabel: empty for non-HTML elements, otherwise the trimmed
best label source. -/
def getLabel (e : Elem) : String :=
  if !e.isHTML then "" else jsTrim (labelSource e)

/-- The haystack the probe matches keywords against: the normalized text
content, aria-label and data-testid joined by single spaces. -/
def haystackStr (e : Elem) : String :=
  normalizeText (e.textContent.getD ("")) ++ " " ++ normalizeText (e.ariaLabel.getD ("")) ++
    " " ++ normalizeText (e.dataTestid.getD (""))

/-- Does any normalized keyword occur in the element's haystack? -/
def matchesKeywordsB (e : Elem) : Bool :=
  KEYWORDS.any (fun kw => jsIncludes (haystackStr e) (normalizeText kw))

/-- The probe's candidate loop: skip non-HTML candidates, skip an empty
haystack, stop at the first candidate whose haystack contains a keyword. -/
def findBest (doc : List Elem) : List Nat → Option Nat
  | [] => none
  | i :: rest =>
    let e := elemAt doc i
    if !e.isHTML then findBest doc rest
    else if haystackStr e = "" then findBest doc rest
    else if matchesKeywordsB e then some i
    else findBest doc rest

/-- The four-way toggle outcome returned by value across the protocol
boundary. -/
inductive SearchToggleResult where
  | alreadyOn (label : Option String)
  | toggledOn (label : Option String)
  | notFound
  | error (message : Option String)
deriving DecidableEq

/-- One evaluation of the injected search-toggle expression. The click
argument models the DOM click dispatch, which may run page event handlers and
throw; a thrown click is caught by the probe's try/catch and surfaced as the
error variant. The second component records the index the probe clicked, if
any. -/
def searchToggleProbe (click : Nat → Elem → Except String Unit) (doc : List Elem) :
    SearchToggleResult × Option Nat :=
  match findBest doc (candidates doc) with
  | none => (SearchToggleResult.notFound, none)
  | some i =>
    let e := elemAt doc i
    let label := getLabel e
    if isOn e then (SearchToggleResult.alreadyOn (some label), none)
    else
      match click i e with
      | Except.error m => (SearchToggleResult.error (some m), some i)
      | Except.ok _ => (SearchToggleResult.toggledOn (some label), some i)

/-- The ordinary click behaviour: the dispatch returns normally. -/
def clickOk : Nat → Elem → Except String Unit := fun _ _ => Except.ok ()

/-- JavaScript truthiness of an optional string: null, undefined and the
empty string are falsy. -/
def jsTruthyOpt : Option String → Bool
  | none => false
  | some s => !(s == "")

/-- A protocol-evaluation value as seen by ensureSearchEnabled: either a
well-formed toggle result or some other object carrying at most a message. -/
inductive JsValue where
  | toggleResult (r : SearchToggleResult)
  | other (message : Option String)

/-- The default (error) logging branch of ensureSearchEnabled. -/
def toggleDefaultLogs (message : Option String) : List String :=
  if jsTruthyOpt message then
    ["Search toggle error: " ++ message.getD ("") ++ "; continuing without forcing search."]
  else
    ["Search toggle error; continuing without forcing search."]

/-- ensureSearchEnabled: switch on the status of the evaluated value (absent
or malformed values fall into the default branch) and log exactly one line;
no branch fails. The returned list is the sequence of logger calls. -/
def ensureSearchEnabled (value : Option JsValue) : List String :=
  match value with
  | some (JsValue.toggleResult (SearchToggleResult.alreadyOn label)) =>
    if jsTruthyOpt label then ["Search toggle already on (" ++ label.getD ("") ++ ")."]
    else ["Search toggle already on."]
  | some (JsValue.toggleResult (SearchToggleResult.toggledOn label)) =>
    if jsTruthyOpt label then ["Search toggle enabled (" ++ label.getD ("") ++ ")."]
    else ["Search toggle enabled."]
  | some (JsValue.toggleResult SearchToggleResult.notFound) =>
    ["Search toggle not found in ChatGPT UI; continuing without forcing search."]
  | some (JsValue.toggleResult (SearchToggleResult.error message)) => toggleDefaultLogs message
  | some (JsValue.other message) => toggleDefaultLogs message
  | none => toggleDefaultLogs none

/-- A persisted session descriptor (only the age-relevant field is needed
here; timestamps are milliseconds since the epoch). -/
structure SessionRecord where
  sessionId : String
  lastUsedAt : Nat
deriving DecidableEq

/-- Is a session older than the hour threshold at the given current time? -/
def sessionStale (now hours : Nat) (s : SessionRecord) : Bool :=
  hours * 3600000 < now - s.lastUsedAt

/-- Modelled from the spec: the body of deleteSessionsOlderThan is not among
the sampled sources (only its call site in handleSessionCommand is); per the
spec it removes the persisted session descriptors whose lastUsedAt exceeds the
age threshold, or every descriptor when includeAll is set, and returns the
count of removed descriptors. The result pairs that count with the surviving
store. -/
def deleteSessionsOlderThan (now hours : Nat) (includeAll : Bool) :
    List SessionRecord → Nat × List SessionRecord
  | [] => (0, [])
  | s :: rest =>
    let r := deleteSessionsOlderThan now hours includeAll rest
    if includeAll || sessionStale now hours s then (r.1 + 1, r.2) else (r.1, s :: r.2)

/-- The browser-mode query result consumed by the MCP tool handler. -/
structure BrowserRunResult where
  answerMarkdown : Option String
  answerText : Option String
deriving DecidableEq

/-- The MCP tool response: one text content item; isError is never set by the
handler, so a response with isError false is a success result. -/
structure ToolResponse where
  contentText : String
  isError : Bool
deriving DecidableEq

/-- The oracle.browserQuery handler's result rendering: prefer
answerMarkdown, then answerText, then the empty-result marker; always a
success response. -/
def browserQueryRespond (result : BrowserRunResult) : ToolResponse :=
  { contentText :=
      jsOrStr (jsOrStr (result.answerMarkdown.getD ("")) (result.answerText.getD ("")))
        ("(no text output)"),
    isError := false }

/-- The options record of the session command. -/
structure StatusOptions where
  hours : Nat
  limit : Nat
  all : Bool
  clear : Option Bool
  clean : Option Bool
deriving DecidableEq

/-- The dependency calls handleSessionCommand can make. -/
inductive SessionCall where
  | deleteCall (hours : Nat) (includeAll : Bool)
  | attachCall (sessionId : String)
  | statusCall (hours : Option Nat) (includeAll : Bool) (limit : Nat) (showExamples : Bool)
deriving DecidableEq

/-- The observable effects of one handleSessionCommand invocation: console
error lines, console log lines, the process exit code if set, and the
dependency calls made. The status call's hour filter is none when the all
flag maps it to Infinity. -/
structure CommandTrace where
  errors : List String
  logs : List String
  exitCode : Option Nat
  calls : List SessionCall
deriving DecidableEq

/-- The scope text of the deletion log line. -/
def clearScopeText (hours : Nat) (includeAll : Bool) : String :=
  if includeAll then "all stored sessions" else "sessions older than " ++ toString hours ++ "h"

/-- The deletion log line, with singular/plural session count. -/
def deletedMessage (deleted : Nat) (scope : String) : String :=
  "Deleted " ++ toString deleted ++ " " ++ (if deleted == 1 then "session" else "sessions") ++
    " (" ++ scope ++ ")."

/-- handleSessionCommand: the clear/clean path (rejecting a truthy session
id), the legacy clear/clean positional, the status path for a falsy id, and
the attach path. deletedCount stands for the count the deletion dependency
returns; showExamples for the default-filter predicate on the command. -/
def handleSessionCommand (sessionId : Option String) (opts : StatusOptions)
    (deletedCount : Nat) (showExamples : Bool) : CommandTrace :=
  let clearRequested := opts.clear.getD false || opts.clean.getD false
  if clearRequested then
    if jsTruthyOpt sessionId then
      { errors := ["Cannot combine a session ID with --clear. Remove the ID to delete cached sessions."],
        logs := [], exitCode := some 1, calls := [] }
    else
      { errors := [],
        logs := [deletedMessage deletedCount (clearScopeText opts.hours opts.all)],
        exitCode := none,
        calls := [SessionCall.deleteCall opts.hours opts.all] }
  else if sessionId == some ("clear") || sessionId == some ("clean") then
    { errors := ["Session cleanup now uses --clear. Run \"oracle session --clear --hours <n>\" instead."],
      logs := [], exitCode := some 1, calls := [] }
  else if !(jsTruthyOpt sessionId) then
    { errors := [], logs := [], exitCode := none,
      calls := [SessionCall.statusCall (if opts.all then none else some opts.hours) opts.all
        opts.limit showExamples] }
  else
    { errors := [], logs := [], exitCode := none,
      calls := [SessionCall.attachCall (sessionId.getD (""))] }

/-- An SVG switch (not an HTMLElement) whose haystack matches the keywords
and whose aria-pressed is the string true. -/
def svgSwitchElem : Elem :=
  { isHTML := false, tag := "svg", role := some ("switch"), ariaPressed := some ("true"),
    ariaChecked := none, dataState := none, ariaLabel := some ("web search"),
    dataTestid := none, textContent := none }

/-- An off HTML div whose text content matches the keywords. -/
def divSearchElem : Elem :=
  { isHTML := true, tag := "div", role := none, ariaPressed := some ("false"),
    ariaChecked := none, dataState := none, ariaLabel := none, dataTestid := none,
    textContent := some ("search now") }

/-- A document whose first keyword-matching candidate is the non-HTML SVG
switch, while an off HTML element matches later. -/
def mixedDoc : List Elem := [svgSwitchElem, divSearchElem]

/-- A single already-on search button. -/
def onButtonDoc : List Elem :=
  [{ isHTML := true, tag := "button", role := none, ariaPressed := some ("true"),
     ariaChecked := none, dataState := none, ariaLabel := none, dataTestid := none,
     textContent := some ("Enable web search") }]

/-- A single button with no keyword anywhere. -/
def plainButtonDoc : List Elem :=
  [{ isHTML := true, tag := "button", role := none, ariaPressed := none,
     ariaChecked := none, dataState := none, ariaLabel := none, dataTestid := none,
     textContent := some ("hello") }]

/-- A single off search button. -/
def offButtonDoc : List Elem :=
  [{ isHTML := true, tag := "button", role := none, ariaPressed := none,
     ariaChecked := none, dataState := none, ariaLabel := none, dataTestid := none,
     textContent := some ("Search the web") }]

/-- A single off button whose aria-label is a lone space while its text
content is a non-empty keyword match. -/
def blankAriaDoc : List Elem :=
  [{ isHTML := true, tag := "button", role := none, ariaPressed := none,
     ariaChecked := none, dataState := none, ariaLabel := some (" "), dataTestid := none,
     textContent := some ("search now") }]

/-- A single off button with aria-label, text and data-testid all set. -/
def labeledToggleDoc : List Elem :=
  [{ isHTML := true, tag := "button", role := none, ariaPressed := none,
     ariaChecked := none, dataState := none, ariaLabel := some ("Toggle web search"),
     dataTestid := some ("composer-search"), textContent := some ("Search") }]

/-! ## Theorems -/

theorem alnum_not_jsSpace (c : Char) (h : isLowerAlnum c = true) : isJsSpace c = false := by
  cases hs : isJsSpace c
  · rfl
  · exfalso
    have h6 : c = ' ' ∨ c = '\t' ∨ c = '\n' ∨ c = '\r' ∨ c = '\x0b' ∨ c = '\x0c' := by
      simpa [isJsSpace, Bool.or_eq_true, beq_iff_eq, or_assoc] using hs
    rcases h6 with h1 | h1 | h1 | h1 | h1 | h1 <;> subst h1 <;> exact absurd h (by decide)

theorem goodChar_toLower_fixed (c : Char) (h : goodChar c = true) : c.toLower = c := by
  simp only [goodChar, Bool.or_eq_true, beq_iff_eq] at h
  rcases h with h | h
  · simp only [isLowerAlnum, Bool.or_eq_true, Bool.and_eq_true, decide_eq_true_eq] at h
    simp only [Char.toLower]
    rw [if_neg]
    simp only [Char.toNat] at h ⊢
    omega
  · subst h; decide

theorem map_toLower_fixed (l : List Char) (h : ∀ c ∈ l, goodChar c = true) :
    l.map Char.toLower = l := by
  induction l with
  | nil => rfl
  | cons a t ih =>
    simp only [List.map_cons]
    rw [goodChar_toLower_fixed a (h a (List.mem_cons_self a t)),
      ih (fun c hc => h c (List.mem_cons_of_mem a hc))]

theorem replaceRunsAux_true_head (p : Char → Bool) (r : Char) :
    ∀ (l : List Char) (c : Char),
      (replaceRunsAux p r true l).head? = some c → p c = false := by
  intro l
  induction l with
  | nil => intro c h; simp [replaceRunsAux] at h
  | cons a t ih =>
    intro c h
    by_cases hp : p a = true
    · have hout : replaceRunsAux p r true (a :: t) = replaceRunsAux p r true t := by
        simp [replaceRunsAux, hp]
      rw [hout] at h
      exact ih c h
    · have hout : replaceRunsAux p r true (a :: t) = a :: replaceRunsAux p r false t := by
        simp [replaceRunsAux, hp]
      rw [hout] at h
      simp only [List.head?_cons, Option.some.injEq] at h
      rw [← h]
      exact eq_false_of_ne_true hp

theorem noAdj_cons (p : Char → Bool) (a : Char) (l : List Char)
    (hhead : ∀ c, l.head? = some c → (p a && p c) = false)
    (hl : noAdj p l = true) : noAdj p (a :: l) = true := by
  cases l with
  | nil => rfl
  | cons b t =>
    have hb := hhead b rfl
    simp [noAdj, hb, hl]

theorem noAdj_tail (p : Char → Bool) (a : Char) (l : List Char)
    (h : noAdj p (a :: l) = true) : noAdj p l = true := by
  cases l with
  | nil => rfl
  | cons b t =>
    simp only [noAdj, Bool.and_eq_true] at h
    exact h.2

theorem replaceRunsAux_noAdj (p : Char → Bool) (r : Char) :
    ∀ (l : List Char) (b : Bool), noAdj p (replaceRunsAux p r b l) = true := by
  intro l
  induction l with
  | nil => intro b; rfl
  | cons a t ih =>
    intro b
    by_cases hp : p a = true
    · cases b with
      | true => simpa [replaceRunsAux, hp] using ih true
      | false =>
        have hout : replaceRunsAux p r false (a :: t) = r :: replaceRunsAux p r true t := by
          simp [replaceRunsAux, hp]
        rw [hout]
        apply noAdj_cons
        · intro c hc
          have hcp := replaceRunsAux_true_head p r t c hc
          simp [hcp]
        · exact ih true
    · have hout : replaceRunsAux p r b (a :: t) = a :: replaceRunsAux p r false t := by
        simp [replaceRunsAux, hp]
      rw [hout]
      apply noAdj_cons
      · intro c _
        simp [eq_false_of_ne_true hp]
      · exact ih false

theorem replaceRunsAux_chars (p : Char → Bool) (r : Char) :
    ∀ (l : List Char) (b : Bool) (c : Char),
      c ∈ replaceRunsAux p r b l → (c ∈ l ∧ p c = false) ∨ c = r := by
  intro l
  induction l with
  | nil => intro b c h; simp [replaceRunsAux] at h
  | cons a t ih =>
    intro b c h
    by_cases hp : p a = true
    · cases b with
      | true =>
        have hout : replaceRunsAux p r true (a :: t) = replaceRunsAux p r true t := by
          simp [replaceRunsAux, hp]
        rw [hout] at h
        rcases ih true c h with ⟨h1, h2⟩ | h1
        · exact Or.inl ⟨List.mem_cons_of_mem a h1, h2⟩
        · exact Or.inr h1
      | false =>
        have hout : replaceRunsAux p r false (a :: t) = r :: replaceRunsAux p r true t := by
          simp [replaceRunsAux, hp]
        rw [hout, List.mem_cons] at h
        rcases h with h | h
        · exact Or.inr h
        · rcases ih true c h with ⟨h1, h2⟩ | h1
          · exact Or.inl ⟨List.mem_cons_of_mem a h1, h2⟩
          · exact Or.inr h1
    · have hout : replaceRunsAux p r b (a :: t) = a :: replaceRunsAux p r false t := by
        simp [replaceRunsAux, hp]
      rw [hout, List.mem_cons] at h
      rcases h with h | h
      · subst h
        exact Or.inl ⟨List.mem_cons_self c t, eq_false_of_ne_true hp⟩
      · rcases ih false c h with ⟨h1, h2⟩ | h1
        · exact Or.inl ⟨List.mem_cons_of_mem a h1, h2⟩
        · exact Or.inr h1

theorem replaceRunsAux_id (p : Char → Bool) (r : Char) :
    ∀ (l : List Char) (b : Bool),
      (∀ c ∈ l, p c = true → c = r) →
      noAdj p l = true →
      (b = true → ∀ c, l.head? = some c → p c = false) →
      replaceRunsAux p r b l = l := by
  intro l
  induction l with
  | nil => intro b _ _ _; rfl
  | cons a t ih =>
    intro b hall hadj hb
    by_cases hp : p a = true
    · cases b with
      | true => exact absurd (hb rfl a rfl) (by simp [hp])
      | false =>
        have ha : a = r := hall a (List.mem_cons_self a t) hp
        have hout : replaceRunsAux p r false (a :: t) = r :: replaceRunsAux p r true t := by
          simp [replaceRunsAux, hp]
        rw [hout, ha]
        congr 1
        apply ih true
        · exact fun c hc hpc => hall c (List.mem_cons_of_mem a hc) hpc
        · exact noAdj_tail p a t hadj
        · intro _ c hc
          cases t with
          | nil => simp at hc
          | cons b' t' =>
            simp only [List.head?_cons, Option.some.injEq] at hc
            subst hc
            simp only [noAdj, Bool.and_eq_true] at hadj
            have h1 := hadj.1
            simpa [hp] using h1
    · have hout : replaceRunsAux p r b (a :: t) = a :: replaceRunsAux p r false t := by
        simp [replaceRunsAux, hp]
      rw [hout]
      congr 1
      apply ih false
      · exact fun c hc hpc => hall c (List.mem_cons_of_mem a hc) hpc
      · exact noAdj_tail p a t hadj
      · intro hfalse
        exact absurd hfalse (by simp)

theorem noAdj_mono (p q : Char → Bool) :
    ∀ l : List Char, (∀ c ∈ l, q c = true → p c = true) → noAdj p l = true →
      noAdj q l = true := by
  intro l
  induction l with
  | nil => intro _ _; rfl
  | cons a t ih =>
    intro himp hp
    have ht : noAdj q t = true :=
      ih (fun c hc => himp c (List.mem_cons_of_mem a hc)) (noAdj_tail p a t hp)
    apply noAdj_cons
    · intro c hc
      cases t with
      | nil => simp at hc
      | cons b t' =>
        simp only [List.head?_cons, Option.some.injEq] at hc
        rw [← hc]
        by_cases hqa : q a = true
        · by_cases hqb : q b = true
          · have hpa := himp a (List.mem_cons_self a (b :: t')) hqa
            have hpb := himp b (List.mem_cons_of_mem a (List.mem_cons_self b t')) hqb
            simp only [noAdj, Bool.and_eq_true] at hp
            have h1 := hp.1
            rw [hpa, hpb] at h1
            exact absurd h1 (by simp)
          · simp [eq_false_of_ne_true hqb]
        · simp [eq_false_of_ne_true hqa]
    · exact ht

theorem noAdj_dropWhile (p q : Char → Bool) :
    ∀ l : List Char, noAdj p l = true → noAdj p (l.dropWhile q) = true := by
  intro l
  induction l with
  | nil => intro _; rfl
  | cons a t ih =>
    intro h
    by_cases hq : q a = true
    · rw [List.dropWhile_cons, if_pos hq]
      exact ih (noAdj_tail p a t h)
    · rw [List.dropWhile_cons, if_neg hq]
      exact h

theorem mem_of_mem_dropWhile (q : Char → Bool) :
    ∀ (l : List Char) (c : Char), c ∈ l.dropWhile q → c ∈ l := by
  intro l
  induction l with
  | nil => intro c h; simp at h
  | cons a t ih =>
    intro c h
    by_cases hq : q a = true
    · rw [List.dropWhile_cons, if_pos hq] at h
      exact List.mem_cons_of_mem a (ih c h)
    · rw [List.dropWhile_cons, if_neg hq] at h
      exact h

theorem mem_dropWhile_of_not (q : Char → Bool) :
    ∀ (l : List Char) (c : Char), c ∈ l → q c = false → c ∈ l.dropWhile q := by
  intro l
  induction l with
  | nil => intro c h _; simp at h
  | cons a t ih =>
    intro c h hqc
    by_cases hq : q a = true
    · rw [List.dropWhile_cons, if_pos hq]
      rcases List.mem_cons.mp h with h1 | h1
      · subst h1; rw [hqc] at hq; exact absurd hq (by simp)
      · exact ih c h1 hqc
    · rw [List.dropWhile_cons, if_neg hq]
      exact h

theorem head?_dropWhile_not (q : Char → Bool) :
    ∀ (l : List Char) (c : Char), (l.dropWhile q).head? = some c → q c = false := by
  intro l
  induction l with
  | nil => intro c h; simp at h
  | cons a t ih =>
    intro c h
    by_cases hq : q a = true
    · rw [List.dropWhile_cons, if_pos hq] at h
      exact ih c h
    · rw [List.dropWhile_cons, if_neg hq] at h
      simp only [List.head?_cons, Option.some.injEq] at h
      rw [← h]
      exact eq_false_of_ne_true hq

theorem getLast?_dropWhile (q : Char → Bool) :
    ∀ l : List Char, l.dropWhile q ≠ [] → (l.dropWhile q).getLast? = l.getLast? := by
  intro l
  induction l with
  | nil => intro h; exact absurd rfl h
  | cons a t ih =>
    intro h
    by_cases hq : q a = true
    · rw [List.dropWhile_cons, if_pos hq] at h ⊢
      have ht : t ≠ [] := by
        intro he
        subst he
        exact h rfl
      rw [ih h]
      cases t with
      | nil => exact absurd rfl ht
      | cons b t' => rw [List.getLast?_cons_cons]
    · rw [List.dropWhile_cons, if_neg hq]

theorem noAdj_iff_chain (p : Char → Bool) :
    ∀ l : List Char, noAdj p l = true ↔ List.Chain' (fun a b => (p a && p b) = false) l := by
  intro l
  induction l with
  | nil => simp [noAdj]
  | cons a t ih =>
    cases t with
    | nil => simp [noAdj]
    | cons b t' =>
      rw [List.chain'_cons, ← ih]
      constructor
      · intro h
        have h' : (!(p a && p b)) = true ∧ noAdj p (b :: t') = true := by
          simpa [noAdj] using h
        have h2 := h'.1
        rw [Bool.not_eq_true'] at h2
        exact ⟨h2, h'.2⟩
      · intro h
        have h1 : (!(p a && p b)) = true := by simp [h.1]
        simp [noAdj, h1, h.2]

theorem noAdj_reverse (p : Char → Bool) (l : List Char) (h : noAdj p l = true) :
    noAdj p l.reverse = true := by
  rw [noAdj_iff_chain] at h ⊢
  rw [List.chain'_reverse]
  exact List.Chain'.imp (fun a b hab => by rwa [Bool.and_comm] at hab) h

theorem noAdj_jsTrimList (p : Char → Bool) (l : List Char) (h : noAdj p l = true) :
    noAdj p (jsTrimList l) = true := by
  unfold jsTrimList
  apply noAdj_reverse
  apply noAdj_dropWhile
  apply noAdj_reverse
  apply noAdj_dropWhile
  exact h

theorem mem_of_mem_jsTrimList (l : List Char) (c : Char) (h : c ∈ jsTrimList l) : c ∈ l := by
  unfold jsTrimList at h
  rw [List.mem_reverse] at h
  have h1 := mem_of_mem_dropWhile isJsSpace _ c h
  rw [List.mem_reverse] at h1
  exact mem_of_mem_dropWhile isJsSpace l c h1

theorem jsTrimList_head (l : List Char) (c : Char)
    (h : (jsTrimList l).head? = some c) : isJsSpace c = false := by
  unfold jsTrimList at h
  rw [List.head?_reverse] at h
  have hne : (l.dropWhile isJsSpace).reverse.dropWhile isJsSpace ≠ [] := by
    intro he
    rw [he] at h
    simp at h
  rw [getLast?_dropWhile isJsSpace _ hne, List.getLast?_reverse] at h
  exact head?_dropWhile_not isJsSpace l c h

theorem jsTrimList_last (l : List Char) (c : Char)
    (h : (jsTrimList l).getLast? = some c) : isJsSpace c = false := by
  unfold jsTrimList at h
  rw [List.getLast?_reverse] at h
  exact head?_dropWhile_not isJsSpace _ c h

theorem dropWhile_id_of_head (q : Char → Bool) (l : List Char)
    (h : ∀ c, l.head? = some c → q c = false) : l.dropWhile q = l := by
  cases l with
  | nil => rfl
  | cons a t => rw [List.dropWhile_cons, if_neg (by simp [h a rfl])]

theorem jsTrimList_id (l : List Char)
    (hh : ∀ c, l.head? = some c → isJsSpace c = false)
    (hl : ∀ c, l.getLast? = some c → isJsSpace c = false) : jsTrimList l = l := by
  unfold jsTrimList
  rw [dropWhile_id_of_head isJsSpace l hh]
  rw [dropWhile_id_of_head isJsSpace l.reverse
    (fun c hc => hl c (by rwa [List.head?_reverse] at hc))]
  exact List.reverse_reverse l

theorem jsTrimList_ne_nil (l : List Char) (c : Char) (hc : c ∈ l)
    (hq : isJsSpace c = false) : jsTrimList l ≠ [] := by
  unfold jsTrimList
  intro h
  have h1 := mem_dropWhile_of_not isJsSpace l c hc hq
  have h2 := List.mem_reverse.mpr h1
  have h3 := mem_dropWhile_of_not isJsSpace _ c h2 hq
  have h4 := List.mem_reverse.mpr h3
  rw [h] at h4
  exact absurd h4 (List.not_mem_nil c)

theorem findBest_eq_none (doc : List Elem) :
    ∀ cand : List Nat, (∀ i ∈ cand, matchesKeywordsB (elemAt doc i) = false) →
      findBest doc cand = none := by
  intro cand
  induction cand with
  | nil => intro _; rfl
  | cons i rest ih =>
    intro h
    have hi := h i (List.mem_cons_self i rest)
    have hrest : ∀ j ∈ rest, matchesKeywordsB (elemAt doc j) = false :=
      fun j hj => h j (List.mem_cons_of_mem i hj)
    by_cases h1 : (elemAt doc i).isHTML
    · by_cases h2 : haystackStr (elemAt doc i) = ""
      · simp [findBest, h1, h2, ih hrest]
      · simp [findBest, h1, h2, hi, ih hrest]
    · simp [findBest, h1, ih hrest]

theorem normList_chars (l : List Char) : ∀ c ∈ normList l, goodChar c = true := by
  intro c hc
  unfold normList at hc
  have hc2 := mem_of_mem_jsTrimList _ c hc
  unfold replaceRuns at hc2
  rcases replaceRunsAux_chars isJsSpace ' ' _ false c hc2 with ⟨h1, _⟩ | h1
  · rcases replaceRunsAux_chars (fun c => !(isLowerAlnum c)) ' ' _ false c h1 with ⟨_, h2⟩ | h2
    · have h3 : isLowerAlnum c = true := by simpa using h2
      simp [goodChar, h3]
    · subst h2; decide
  · subst h1; decide

theorem normList_noAdjSpace (l : List Char) :
    noAdj (fun c => c == ' ') (normList l) = true := by
  unfold normList
  apply noAdj_jsTrimList
  apply noAdj_mono isJsSpace (fun c => c == ' ')
  · intro c _ hc
    have hce : c = ' ' := by simpa using hc
    subst hce
    decide
  · exact replaceRunsAux_noAdj isJsSpace ' ' _ false

theorem normList_fixed (l : List Char)
    (hgood : ∀ c ∈ l, goodChar c = true)
    (hadj : noAdj (fun c => c == ' ') l = true)
    (hh : ∀ c, l.head? = some c → isJsSpace c = false)
    (hl : ∀ c, l.getLast? = some c → isJsSpace c = false) :
    normList l = l := by
  unfold normList replaceRuns
  rw [map_toLower_fixed l hgood]
  have hstep1 : replaceRunsAux (fun c => !(isLowerAlnum c)) ' ' false l = l := by
    apply replaceRunsAux_id
    · intro c hc hpc
      have h1 : isLowerAlnum c = false := by simpa using hpc
      have h2 := hgood c hc
      simp only [goodChar, Bool.or_eq_true, beq_iff_eq] at h2
      rcases h2 with h2 | h2
      · rw [h1] at h2; exact absurd h2 (by simp)
      · exact h2
    · apply noAdj_mono (fun c => c == ' ')
      · intro c hc hqc
        have h1 : isLowerAlnum c = false := by simpa using hqc
        have h2 := hgood c hc
        simp only [goodChar, Bool.or_eq_true] at h2
        rcases h2 with h2 | h2
        · rw [h1] at h2; exact absurd h2 (by simp)
        · exact h2
      · exact hadj
    · intro hfalse; exact absurd hfalse (by simp)
  rw [hstep1]
  have hstep2 : replaceRunsAux isJsSpace ' ' false l = l := by
    apply replaceRunsAux_id
    · intro c hc hpc
      have h2 := hgood c hc
      simp only [goodChar, Bool.or_eq_true, beq_iff_eq] at h2
      rcases h2 with h2 | h2
      · rw [alnum_not_jsSpace c h2] at hpc; exact absurd hpc (by simp)
      · exact h2
    · apply noAdj_mono (fun c => c == ' ')
      · intro c hc hqc
        have h2 := hgood c hc
        simp only [goodChar, Bool.or_eq_true] at h2
        rcases h2 with h2 | h2
        · rw [alnum_not_jsSpace c h2] at hqc; exact absurd hqc (by simp)
        · exact h2
      · exact hadj
    · intro hfalse; exact absurd hfalse (by simp)
  rw [hstep2]
  exact jsTrimList_id l hh hl

theorem normList_idem (l : List Char) : normList (normList l) = normList l :=
  normList_fixed (normList l) (normList_chars l) (normList_noAdjSpace l)
    (fun c hc => jsTrimList_head _ c hc) (fun c hc => jsTrimList_last _ c hc)

/-- Claim C4: the probe's text normalization (lower-case, collapse runs of
characters outside the class a-z0-9 to single spaces, collapse whitespace
runs, trim) is idempotent: normalizing an already-normalized string returns
it unchanged, for every string. -/
theorem claim4_normalize_idempotent (s : String) :
    normalizeText (normalizeText s) = normalizeText s := by
  by_cases hs : s = ""
  · subst hs; rfl
  · have h1 : normalizeText s = String.mk (normList s.data) := by
      rw [normalizeText, if_neg hs]
    rw [h1]
    by_cases h2 : String.mk (normList s.data) = ""
    · rw [normalizeText, if_pos h2]
      exact h2.symm
    · rw [normalizeText, if_neg h2]
      show String.mk (normList (normList s.data)) = String.mk (normList s.data)
      rw [normList_idem]

/-- Claim C2: if no candidate element's normalized haystack contains any of
the keywords, the probe returns the not-found variant and synthesizes no
click on any element, for every click behaviour. -/
theorem claim2_not_found_no_mutation (click : Nat → Elem → Except String Unit)
    (doc : List Elem)
    (h : ∀ i ∈ candidates doc, matchesKeywordsB (elemAt doc i) = false) :
    searchToggleProbe click doc = (SearchToggleResult.notFound, none) := by
  unfold searchToggleProbe
  rw [findBest_eq_none doc (candidates doc) h]

theorem claim2_witness :
    searchToggleProbe clickOk plainButtonDoc = (SearchToggleResult.notFound, none) :=
  claim2_not_found_no_mutation clickOk plainButtonDoc (by decide)

/-- Claim C3: one evaluation of the probe expression returns exactly one
value, and that value is one of the four ToggleOutcome variants, with a
string message in the error case; this holds for every document and every
click behaviour, including ones whose click dispatch throws, so no exception
crosses the protocol boundary. -/
theorem claim3_probe_total_four_variants (click : Nat → Elem → Except String Unit)
    (doc : List Elem) :
    (searchToggleProbe click doc).1 = SearchToggleResult.notFound ∨
    (∃ l, (searchToggleProbe click doc).1 = SearchToggleResult.alreadyOn (some l)) ∨
    (∃ l, (searchToggleProbe click doc).1 = SearchToggleResult.toggledOn (some l)) ∨
    (∃ m, (searchToggleProbe click doc).1 = SearchToggleResult.error (some m)) := by
  unfold searchToggleProbe
  cases h : findBest doc (candidates doc) with
  | none => exact Or.inl rfl
  | some i =>
    by_cases hOn : isOn (elemAt doc i)
    · exact Or.inr (Or.inl ⟨getLabel (elemAt doc i), by simp [hOn]⟩)
    · cases hc : click i (elemAt doc i) with
      | error m =>
        exact Or.inr (Or.inr (Or.inr ⟨m, by simp [hOn, hc]⟩))
      | ok u =>
        exact Or.inr (Or.inr (Or.inl ⟨getLabel (elemAt doc i), by simp [hOn, hc]⟩))

theorem haystackStr_ne_empty (e : Elem) : haystackStr e ≠ "" := by
  intro h
  have hm : (' ' : Char) ∈ (haystackStr e).data := by
    unfold haystackStr
    simp only [String.data_append, List.mem_append]
    exact Or.inl (Or.inr (by decide))
  rw [h] at hm
  exact absurd hm (by decide)

theorem findBest_eq_find (doc : List Elem) :
    ∀ cand : List Nat, findBest doc cand =
      cand.find? (fun i => (elemAt doc i).isHTML && matchesKeywordsB (elemAt doc i)) := by
  intro cand
  induction cand with
  | nil => rfl
  | cons i rest ih =>
    by_cases h1 : (elemAt doc i).isHTML
    · by_cases h2 : matchesKeywordsB (elemAt doc i) = true
      · simp [findBest, List.find?, h1, h2, haystackStr_ne_empty (elemAt doc i)]
      · simp [findBest, List.find?, h1, h2, haystackStr_ne_empty (elemAt doc i), ih]
    · simp [findBest, List.find?, h1, ih]

theorem searchToggleProbe_at_first (click : Nat → Elem → Except String Unit)
    (doc : List Elem) (i : Nat)
    (h : (candidates doc).find?
      (fun j => (elemAt doc j).isHTML && matchesKeywordsB (elemAt doc j)) = some i) :
    searchToggleProbe click doc =
      if isOn (elemAt doc i) then
        (SearchToggleResult.alreadyOn (some (getLabel (elemAt doc i))), none)
      else
        match click i (elemAt doc i) with
        | Except.error m => (SearchToggleResult.error (some m), some i)
        | Except.ok _ => (SearchToggleResult.toggledOn (some (getLabel (elemAt doc i))), some i) := by
  unfold searchToggleProbe
  rw [findBest_eq_find, h]

/-- Claim C1 (amended): for every DOM model and click behaviour, if the first
keyword-matching HTMLElement candidate has aria-pressed true, aria-checked
true, or a data-state whose lower-cased value is in the active set, the probe
returns the already-on variant and synthesizes no click. The amendment
restricts the governing candidate to HTMLElements: the probe skips
non-HTMLElement candidates (such as SVG switches) even when their haystack
matches. -/
theorem claim1_already_on_no_click (click : Nat → Elem → Except String Unit)
    (doc : List Elem) (i : Nat)
    (h : (candidates doc).find?
      (fun j => (elemAt doc j).isHTML && matchesKeywordsB (elemAt doc j)) = some i)
    (hstate : (elemAt doc i).ariaPressed = some ("true") ∨
      (elemAt doc i).ariaChecked = some ("true") ∨
      ACTIVE_STATES.contains (strToLower (((elemAt doc i).dataState).getD (""))) = true) :
    searchToggleProbe click doc =
      (SearchToggleResult.alreadyOn (some (getLabel (elemAt doc i))), none) := by
  have hp := List.find?_some h
  simp only [Bool.and_eq_true] at hp
  have hhtml : (elemAt doc i).isHTML = true := hp.1
  have hOn : isOn (elemAt doc i) = true := by
    have hstate2 : (elemAt doc i).ariaPressed = some ("true") ∨
        (elemAt doc i).ariaChecked = some ("true") ∨
        strToLower (((elemAt doc i).dataState).getD ("")) ∈ ACTIVE_STATES := by
      rcases hstate with h1 | h1 | h1
      · exact Or.inl h1
      · exact Or.inr (Or.inl h1)
      · exact Or.inr (Or.inr (by simpa using h1))
    rcases hstate2 with h1 | h1 | h1 <;> simp [isOn, hhtml, h1]
  rw [searchToggleProbe_at_first click doc i h, if_pos hOn]

theorem claim1_witness :
    searchToggleProbe clickOk onButtonDoc =
      (SearchToggleResult.alreadyOn (some ("Enable web search")), none) :=
  claim1_already_on_no_click clickOk onButtonDoc 0 (by decide) (Or.inl (by decide))

/-- Claim C1 counterexample: in mixedDoc the first keyword-matching candidate
(the SVG switch, not an HTMLElement) has aria-pressed true, yet the probe
does not return already-on: it clicks the later HTML candidate and returns
toggled-on. -/
theorem claim1_counterexample :
    (candidates mixedDoc).find? (fun j => matchesKeywordsB (elemAt mixedDoc j)) = some 0
    ∧ (elemAt mixedDoc 0).ariaPressed = some ("true")
    ∧ searchToggleProbe clickOk mixedDoc =
        (SearchToggleResult.toggledOn (some ("search now")), some 1) := by
  decide

/-- Claim C5 (amended): whenever some candidate matches, the probe acts on
the first HTMLElement candidate — in the order the candidate set is gathered
from the fixed selector list — whose normalized haystack contains any keyword
as a substring: first match wins, with no scoring beyond containment; the
probe's whole outcome is determined by that element. The amendment restricts
first match to HTMLElement candidates, which are the only ones the probe
considers. -/
theorem claim5_first_match_wins (click : Nat → Elem → Except String Unit)
    (doc : List Elem) (i : Nat)
    (h : (candidates doc).find?
      (fun j => (elemAt doc j).isHTML && matchesKeywordsB (elemAt doc j)) = some i) :
    searchToggleProbe click doc =
      if isOn (elemAt doc i) then
        (SearchToggleResult.alreadyOn (some (getLabel (elemAt doc i))), none)
      else
        match click i (elemAt doc i) with
        | Except.error m => (SearchToggleResult.error (some m), some i)
        | Except.ok _ => (SearchToggleResult.toggledOn (some (getLabel (elemAt doc i))), some i) := by
  unfold searchToggleProbe
  rw [findBest_eq_find, h]

theorem claim5_witness :
    searchToggleProbe clickOk offButtonDoc =
      (SearchToggleResult.toggledOn (some ("Search the web")), some 0) := by
  have h := claim5_first_match_wins clickOk offButtonDoc 0 (by decide)
  exact h.trans (by decide)

/-- Claim C5 counterexample: in mixedDoc the first candidate in gathered
order whose haystack matches is index 0 (the SVG switch), but the probe acts
on index 1 instead. -/
theorem claim5_counterexample :
    (candidates mixedDoc).find? (fun j => matchesKeywordsB (elemAt mixedDoc j)) = some 0
    ∧ (searchToggleProbe clickOk mixedDoc).2 = some 1 := by
  decide

theorem find?_of_filter_singleton {α : Type} (p : α → Bool) :
    ∀ (l : List α) (a : α), l.filter p = [a] → l.find? p = some a := by
  intro l
  induction l with
  | nil => intro a h; simp at h
  | cons x t ih =>
    intro a h
    by_cases hp : p x = true
    · rw [List.filter_cons_of_pos hp] at h
      have hx : x = a := (List.cons.injEq x _ a _).mp h |>.1
      rw [List.find?_cons_of_pos _ hp, hx]
    · rw [List.filter_cons_of_neg hp] at h
      rw [List.find?_cons_of_neg _ hp]
      exact ih a h

/-- Claim C6 (amended): for every DOM model in which exactly one HTMLElement
candidate matches the keywords and that candidate is off, the probe clicks it
and returns toggled-on; the returned label is the first non-empty of
aria-label, text content and data-testid (in that priority), trimmed, and it
is non-empty whenever that chosen source contains a non-whitespace character.
The amendment replaces the claim's label condition (any of the three sources
non-empty) by the provable one: a whitespace-only aria-label is non-empty yet
trims to an empty label. -/
theorem claim6_single_match_toggles (doc : List Elem) (i : Nat)
    (hfilter : (candidates doc).filter
      (fun j => (elemAt doc j).isHTML && matchesKeywordsB (elemAt doc j)) = [i])
    (hoff : isOn (elemAt doc i) = false) :
    searchToggleProbe clickOk doc =
      (SearchToggleResult.toggledOn (some (getLabel (elemAt doc i))), some i)
    ∧ getLabel (elemAt doc i) = jsTrim (labelSource (elemAt doc i))
    ∧ ((∃ c ∈ (labelSource (elemAt doc i)).data, isJsSpace c = false) →
        getLabel (elemAt doc i) ≠ "") := by
  have hfind := find?_of_filter_singleton _ (candidates doc) i hfilter
  have hp := List.find?_some hfind
  simp only [Bool.and_eq_true] at hp
  have hhtml : (elemAt doc i).isHTML = true := hp.1
  have hlabel : getLabel (elemAt doc i) = jsTrim (labelSource (elemAt doc i)) := by
    simp [getLabel, hhtml]
  refine ⟨?_, hlabel, ?_⟩
  · rw [searchToggleProbe_at_first clickOk doc i hfind, if_neg (by simp [hoff])]
    rfl
  · rintro ⟨c, hc, hcs⟩ heq
    have hne := jsTrimList_ne_nil (labelSource (elemAt doc i)).data c hc hcs
    rw [hlabel] at heq
    exact hne (congrArg String.data heq)

theorem claim6_witness :
    searchToggleProbe clickOk labeledToggleDoc =
      (SearchToggleResult.toggledOn (some ("Toggle web search")), some 0) ∧
    getLabel (elemAt labeledToggleDoc 0) ≠ "" := by
  have h := claim6_single_match_toggles labeledToggleDoc 0 (by decide) (by decide)
  exact ⟨h.1, h.2.2 (by decide)⟩

/-- Claim C6 counterexample: in blankAriaDoc exactly one candidate matches
and is off, its aria-label is the non-empty string of one space, yet the
probe returns toggled-on with an empty label, because the aria-label wins
the priority chain before trimming. -/
theorem claim6_counterexample :
    (candidates blankAriaDoc).filter
      (fun j => (elemAt blankAriaDoc j).isHTML && matchesKeywordsB (elemAt blankAriaDoc j)) = [0]
    ∧ isOn (elemAt blankAriaDoc 0) = false
    ∧ (elemAt blankAriaDoc 0).ariaLabel = some (" ")
    ∧ (" " : String) ≠ ""
    ∧ searchToggleProbe clickOk blankAriaDoc =
        (SearchToggleResult.toggledOn (some ("")), some 0) := by
  decide

/-- Claim C7: with includeAll false, deleteSessionsOlderThan removes exactly
the sessions whose lastUsedAt is older than the hour threshold, keeps every
newer session unchanged and in order, and returns the removed count; with
includeAll true it removes every stored session regardless of the threshold. -/
theorem claim7_delete_sessions_older_than (now hours : Nat) (store : List SessionRecord) :
    (deleteSessionsOlderThan now hours false store).2 =
        store.filter (fun s => !(sessionStale now hours s)) ∧
    (deleteSessionsOlderThan now hours false store).1 =
        (store.filter (fun s => sessionStale now hours s)).length ∧
    (deleteSessionsOlderThan now hours true store).2 = [] ∧
    (deleteSessionsOlderThan now hours true store).1 = store.length := by
  induction store with
  | nil => exact ⟨rfl, rfl, rfl, rfl⟩
  | cons s rest ih =>
    obtain ⟨h1, h2, h3, h4⟩ := ih
    by_cases hs : sessionStale now hours s = true <;>
      simp [deleteSessionsOlderThan, hs, h1, h2, h3, h4]

theorem toggleDefaultLogs_eq (message : Option String) :
    ∃ msg, toggleDefaultLogs message = [msg] := by
  unfold toggleDefaultLogs
  split <;> exact ⟨_, rfl⟩

/-- Claim C8: for every possible evaluation outcome of the probe, including
the not-found and error variants, a missing result value, or a malformed
one, ensureSearchEnabled returns normally and emits exactly one log message;
not-found and error are handled by logging alone, so the query proceeds. -/
theorem claim8_ensure_search_logs_once (value : Option JsValue) :
    ∃ msg, ensureSearchEnabled value = [msg] := by
  cases value with
  | none => exact toggleDefaultLogs_eq none
  | some v =>
    cases v with
    | other message => exact toggleDefaultLogs_eq message
    | toggleResult r =>
      cases r with
      | alreadyOn label =>
        by_cases h : jsTruthyOpt label = true <;> simp [ensureSearchEnabled, h]
      | toggledOn label =>
        by_cases h : jsTruthyOpt label = true <;> simp [ensureSearchEnabled, h]
      | notFound => exact ⟨_, rfl⟩
      | error message => exact toggleDefaultLogs_eq message

/-- Claim C9: when both answerMarkdown and answerText are empty or absent,
the browser-query tool handler still returns a success response whose text is
the empty-result marker; a non-empty answerMarkdown is preferred over
answerText; the handler never sets the error flag. -/
theorem claim9_browser_query_empty_extraction (r : BrowserRunResult) :
    ((r.answerMarkdown.getD ("") = "") → (r.answerText.getD ("") = "") →
      browserQueryRespond r = { contentText := "(no text output)", isError := false }) ∧
    (∀ md, r.answerMarkdown = some md → md ≠ "" →
      (browserQueryRespond r).contentText = md) ∧
    (browserQueryRespond r).isError = false := by
  refine ⟨fun h1 h2 => ?_, fun md hmd hne => ?_, rfl⟩
  · simp [browserQueryRespond, jsOrStr, h1, h2]
  · simp [browserQueryRespond, jsOrStr, hmd, hne]

theorem claim9_witness :
    browserQueryRespond { answerMarkdown := some (""), answerText := none } =
      { contentText := "(no text output)", isError := false } :=
  (claim9_browser_query_empty_extraction { answerMarkdown := some (""), answerText := none }).1
    rfl rfl

/-- Claim C10 (amended): when a non-empty session id is supplied together
with the clear or clean option, the handler reports the combination error,
sets the process exit code to 1, and makes no dependency calls, so no stored
session is deleted or mutated. The amendment restricts the claim to non-empty
ids: the handler tests the id with JavaScript truthiness, under which the
empty string counts as absent. -/
theorem claim10_clear_with_id_rejected (id : String) (opts : StatusOptions)
    (deletedCount : Nat) (showExamples : Bool) (hid : id ≠ "")
    (hclear : (opts.clear.getD false || opts.clean.getD false) = true) :
    handleSessionCommand (some id) opts deletedCount showExamples =
      { errors := ["Cannot combine a session ID with --clear. Remove the ID to delete cached sessions."],
        logs := [], exitCode := some 1, calls := [] } := by
  have ht : jsTruthyOpt (some id) = true := by simp [jsTruthyOpt, hid]
  simp [handleSessionCommand, hclear, ht]

/-- Claim C10 counterexample: the empty string is a supplied session id, yet
together with the clear option the handler reports no error, leaves the exit
code unset, and calls the deletion dependency, deleting stored sessions. -/
theorem claim10_counterexample :
    handleSessionCommand (some ("")) { hours := 24, limit := 10, all := false, clear := some true, clean := none } 3 false =
      { errors := [],
        logs := ["Deleted 3 sessions (sessions older than 24h)."],
        exitCode := none,
        calls := [SessionCall.deleteCall 24 false] } := by
  decide

theorem claim10_witness :
    handleSessionCommand (some ("abc")) { hours := 24, limit := 10, all := false, clear := some true, clean := none } 0 false =
      { errors := ["Cannot combine a session ID with --clear. Remove the ID to delete cached sessions."],
        logs := [], exitCode := some 1, calls := [] } :=
  claim10_clear_with_id_rejected ("abc")
    { hours := 24, limit := 10, all := false, clear := some true, clean := none } 0 false
    (by decide) (by decide)

end OracleMcp
